import Mathlib

/-
Shallow embedding of the client-side-prediction repository
(src/src/main.rs, src/src/client.rs, src/src/server.rs).

Modelling conventions: f32 and f64 values are embedded as rationals;
u32 and u128 values as naturals with explicit clamping casts where the
source casts; the simulated wall clock (SystemTime or get_time, in
seconds) is passed explicitly as a rational argument; Rust Vec is List,
HashMap is a function to Option; the Weak back-reference from Client to
Server is replaced by passing the one value it is read for (the number
of registered clients) as an argument.
-/

/-- Movement input, from the MovementInput struct in main.rs. -/
structure MovementInput where
  press_time : ℚ
  entity_id : ℕ
  input_sequence_number : ℕ
deriving DecidableEq

/-- Entity, from the Entity struct in main.rs; the position_buffer field
is the one used by client.rs (pairs of u128 millisecond timestamps and
f32 positions). -/
structure Entity where
  x : ℚ
  speed : ℤ
  entity_id : ℕ
  position_buffer : List (ℕ × ℚ)
deriving DecidableEq

/-- Entity constructor, from main.rs: position 0, speed 10, empty buffer. -/
def Entity.new (entity_id : ℕ) : Entity :=
  { x := 0, speed := 10, entity_id := entity_id, position_buffer := [] }

/-- Integration rule, from Entity applyInput in main.rs lines 23-25. -/
def Entity.applyInput (e : Entity) (input : MovementInput) : Entity :=
  { e with x := e.x + input.press_time * (e.speed : ℚ) }

/-- One snapshot entry, from the world_state struct in main.rs: the
last_processed_input field is an f32 in the source, embedded as a
rational. -/
structure world_state where
  entity_id : ℕ
  position : ℚ
  last_processed_input : ℚ
deriving DecidableEq

/-- World snapshot message, from the WorldStateMessage struct in main.rs. -/
structure WorldStateMessage where
  world_state : List world_state
deriving DecidableEq

/-- Message enum, from main.rs. -/
inductive Message where
  | Movement : MovementInput → Message
  | WorldState : WorldStateMessage → Message
deriving DecidableEq

/-- Queued network message, from the NetworkMessage struct in main.rs:
the receive_time field stores the wall-clock time at which send was
called (the send code never adds the latency argument to it). -/
structure NetworkMessage (α : Type) where
  receive_time : ℚ
  payload : α
deriving DecidableEq

/-- LagNetwork send, from main.rs lines 61-75: the lag_ms argument is
accepted but never used; the message is pushed with receive_time equal
to the current wall-clock time. -/
def LagNetwork.send (now lag_ms : ℚ) (message : α)
    (messages : List (NetworkMessage α)) : List (NetworkMessage α) :=
  messages ++ [{ receive_time := now, payload := message }]

/-- LagNetwork receive, from main.rs lines 77-93: scan the queue in
insertion order and remove and return the first message that was sent
at least 0.1 seconds ago (the threshold is the hard-coded literal 0.1
in the source, independent of any latency passed to send). -/
def LagNetwork.receive (now : ℚ) :
    List (NetworkMessage α) → Option (α × List (NetworkMessage α))
  | [] => none
  | m :: rest =>
    if 1/10 ≤ now - m.receive_time then
      some (m.payload, rest)
    else
      match LagNetwork.receive now rest with
      | none => none
      | some (p, q) => some (p, m :: q)

/-- Rust cast from f32 to u32 (as-cast): truncate toward zero, clamp
negative values to 0 and large values to the maximal u32. Used for the
last_processed_input comparison in client.rs line 124. -/
def ratToU32 (q : ℚ) : ℕ :=
  min ⌊q⌋.toNat (2 ^ 32 - 1)

/-- Reconciliation loop, from client.rs lines 120-132: scan the pending
input list by index j; an input whose sequence number is at most the
acknowledged value is removed in place (j is not advanced), any other
input is applied to the entity and j is advanced. -/
def Client.reconcileLoop (k : ℕ) (e : Entity) (pending : List MovementInput)
    (j : ℕ) : Entity × List MovementInput :=
  if h : j < pending.length then
    if pending[j].input_sequence_number ≤ k then
      Client.reconcileLoop k e (pending.eraseIdx j) j
    else
      Client.reconcileLoop k (e.applyInput pending[j]) pending (j + 1)
  else
    (e, pending)
termination_by pending.length - j
decreasing_by
  all_goals first
    | omega
    | (simp only [List.length_eraseIdx]; split <;> omega)

/-- Processing of a snapshot entry for the own controlled entity, from
client.rs lines 115-135: the position is assigned from the entry, then
with reconciliation enabled the pending inputs are pruned and replayed
by the index loop (the acknowledged sequence is the u32 cast of the
f32 field), and with reconciliation disabled the pending list is
cleared. -/
def Client.processOwnEntry (server_reconciliation : Bool) (e : Entity)
    (pending : List MovementInput) (ws : world_state) :
    Entity × List MovementInput :=
  let e1 := { e with x := ws.position }
  if server_reconciliation then
    Client.reconcileLoop (ratToU32 ws.last_processed_input) e1 pending 0
  else
    (e1, [])

/-- Front pruning of the interpolation buffer, from the while loop in
client.rs lines 171-173: drop the head while at least two samples
remain and the timestamp of the second is at most the render
timestamp. -/
def pruneBuffer (render_timestamp : ℕ) : List (ℕ × ℚ) → List (ℕ × ℚ)
  | a :: b :: rest =>
    if b.1 ≤ render_timestamp then
      pruneBuffer render_timestamp (b :: rest)
    else
      a :: b :: rest
  | l => l

/-- Per-entity body of Client interpolateEntities, from client.rs lines
168-188: the stored buffer is cloned, the clone is front-pruned, and
depending on the pruned clone the position is linearly blended, snapped,
or left unchanged; the subtractions on timestamps are unsigned (u128)
and the quotient is formed after casting to f32. The stored
position_buffer of the entity is not written (only the clone was
pruned). -/
def Client.interpolateEntity (e : Entity) (render_timestamp : ℕ) : Entity :=
  match pruneBuffer render_timestamp e.position_buffer with
  | p0 :: p1 :: _ =>
    if p0.1 ≤ render_timestamp ∧ render_timestamp ≤ p1.1 then
      let t : ℚ := ((render_timestamp - p0.1 : ℕ) : ℚ) / ((p1.1 - p0.1 : ℕ) : ℚ)
      { e with x := p0.2 + t * (p1.2 - p0.2) }
    else
      e
  | [p0] =>
    if p0.1 ≤ render_timestamp then { e with x := p0.2 } else e
  | [] => e

/-- Client state, from the Client struct in client.rs; the Weak server
reference is dropped (it is only read at construction time). -/
structure Client where
  update_interval : ℚ
  time_since_last_update : ℚ
  key_left : Bool
  key_right : Bool
  last_time : ℚ
  input_sequence_number : ℕ
  entity_id : ℕ
  network : List (NetworkMessage Message)
  entities : ℕ → Option Entity
  client_side_prediction : Bool
  server_reconciliation : Bool
  pending_inputs : List MovementInput
  latency_to_server : ℚ
  entity_interpolation : Bool

/-- Client constructor, from client.rs lines 28-54: the entity id is the
number of clients registered at the server before this one, plus one;
numClients stands for the clients.len() read through the Weak server
reference, and now for get_time. -/
def Client.new (now : ℚ) (numClients : ℕ) (update_interval : ℚ) : Client :=
  { update_interval := update_interval
    time_since_last_update := 0
    key_left := false
    key_right := false
    last_time := now
    input_sequence_number := 0
    entity_id := numClients + 1
    network := []
    entities := fun _ => none
    client_side_prediction := false
    server_reconciliation := false
    pending_inputs := []
    latency_to_server := 250
    entity_interpolation := false }

/-- Server state, from the Server struct in server.rs. -/
structure Server where
  clients : List Client
  network : List (NetworkMessage Message)
  time_since_last_update : ℚ
  update_interval : ℚ
  entities : ℕ → Option Entity
  last_processed_inputs : ℕ → Option ℚ

/-- Server constructor, from server.rs lines 17-26: update interval 0.1
seconds, everything else empty. -/
def Server.new : Server :=
  { clients := []
    network := []
    time_since_last_update := 0
    update_interval := 1/10
    entities := fun _ => none
    last_processed_inputs := fun _ => none }

/-- Client registration, from server.rs lines 28-45: construct the
client (which reads the current number of clients), push it, then
insert one authoritative entity keyed by the new length of the client
list; now stands for the wall clock at registration. -/
def Server.add_client (now : ℚ) (s : Server) : Server × Client :=
  let client := Client.new now s.clients.length (2/100)
  let s1 := { s with clients := s.clients ++ [client] }
  let entity_id := s1.clients.length
  let s2 := { s1 with
    entities := fun m => if m = entity_id then some (Entity.new entity_id) else s1.entities m }
  (s2, client)

/-- Server state after n client registrations starting from a fresh
server (the wall clock at each registration is irrelevant to every
field the claims look at and is fixed to 0). -/
def serverAfterClients : ℕ → Server
  | 0 => Server.new
  | n + 1 => (Server.add_client 0 (serverAfterClients n)).1

/-- Snapshot entry built by Server sendWorldState for one entity, from
server.rs lines 79-85: the acknowledgment field is the recorded last
processed input sequence for that entity id, or the default 0.0 when
none was ever recorded. -/
def Server.worldStateEntryFor (s : Server) (id : ℕ) : Option world_state :=
  (s.entities id).map (fun e =>
    { entity_id := id
      position := e.x
      last_processed_input := (s.last_processed_inputs id).getD 0 })

/-- Clock and gating skeleton of Server update, from server.rs lines
99-130: the accumulator is incremented by delta_time at line 101,
incremented by delta_time again at line 120, and the authoritative
block (processInputs and sendWorldState) runs when the accumulator has
reached the interval, which is then subtracted. The returned Bool
records whether the authoritative block ran; the per-client ticking and
message forwarding in between touch neither the accumulator nor the
gate. -/
def Server.update (s : Server) (delta_time : ℚ) : Server × Bool :=
  let s1 := { s with time_since_last_update := s.time_since_last_update + delta_time }
  let s2 := { s1 with time_since_last_update := s1.time_since_last_update + delta_time }
  if s2.update_interval ≤ s2.time_since_last_update then
    ({ s2 with time_since_last_update := s2.time_since_last_update - s2.update_interval }, true)
  else
    (s2, false)

/-- Helper: the index-based reconciliation loop started at position j
keeps the already scanned front part, keeps exactly the unscanned
inputs whose sequence number exceeds the acknowledged value (in their
original relative order), and folds the integration rule over the kept
scanned inputs. -/
theorem reconcileLoop_eq (k : ℕ) (e : Entity) (l : List MovementInput) (j : ℕ) :
    Client.reconcileLoop k e l j =
      (List.foldl Entity.applyInput e
        ((l.drop j).filter fun inp => decide (k < inp.input_sequence_number)),
       l.take j ++ (l.drop j).filter fun inp => decide (k < inp.input_sequence_number)) := by
  rw [Client.reconcileLoop]
  split
  · rename_i h
    have hdrop : l.drop j = l[j] :: l.drop (j + 1) := List.drop_eq_getElem_cons h
    split
    · rename_i hle
      rw [reconcileLoop_eq k e (l.eraseIdx j) j]
      have herase : l.eraseIdx j = l.take j ++ l.drop (j + 1) :=
        List.eraseIdx_eq_take_drop_succ l j
      have htk : (l.take j).length = j := List.length_take_of_le (Nat.le_of_lt h)
      have h1 : (l.eraseIdx j).take j = l.take j := by
        rw [herase, List.take_append_eq_append_take, htk]
        simp
      have h2 : (l.eraseIdx j).drop j = l.drop (j + 1) := by
        rw [herase, List.drop_append_eq_append_drop, htk]
        simp
      rw [h1, h2, hdrop]
      rw [List.filter_cons_of_neg]
      simp only [decide_eq_true_eq, not_lt]
      exact hle
    · rename_i hgt
      rw [reconcileLoop_eq k (e.applyInput l[j]) l (j + 1)]
      have htake : l.take (j + 1) = l.take j ++ [l[j]] :=
        (List.take_concat_get' l j h).symm
      rw [htake, hdrop, List.filter_cons_of_pos, List.foldl_cons, List.append_assoc]
      · rfl
      · simp only [decide_eq_true_eq]
        omega
  · rename_i h
    push_neg at h
    rw [List.drop_eq_nil_of_le h, List.take_of_length_le h]
    simp
termination_by l.length - j
decreasing_by
  all_goals first
    | omega
    | (simp only [List.length_eraseIdx]; split <;> omega)

/-- C1: refuted on the code. The claim says a message sent at time T
with configured one-way latency L is released exactly at T + L. In the
source, send ignores its latency argument and receive releases every
message a hard-coded 0.1 seconds after it was sent. First conjunct: a
message sent at T = 0 with latency argument 250 (milliseconds, 0.25
seconds) is already returned by receive at 0.2 seconds, strictly before
T + L (second conjunct, with L read in seconds as 250 ms). Third
conjunct: a message sent with latency 0 is not returned by the first
receive at 0.05 seconds, although 0.05 is at least T + 0. -/
theorem lag_channel_ignores_configured_latency :
    LagNetwork.receive (1/5)
        (LagNetwork.send 0 250 (Message.Movement ⟨1, 1, 0⟩) []) =
      some (Message.Movement ⟨1, 1, 0⟩, []) ∧
    (1/5 : ℚ) < 0 + 250 / 1000 ∧
    LagNetwork.receive (5/100)
        (LagNetwork.send 0 0 (Message.Movement ⟨1, 1, 0⟩) []) = none := by
  refine ⟨?_, by norm_num, ?_⟩
  · norm_num [LagNetwork.receive, LagNetwork.send]
  · norm_num [LagNetwork.receive, LagNetwork.send]

/-- C2: refuted on the code. Server update adds delta_time to its
accumulator twice per frame (server.rs lines 101 and 120), so on a
fresh server with the configured interval 0.1 s a single frame of
0.06 s already triggers the authoritative update (first conjunct),
although the elapsed time 0.06 s is strictly below the interval (third
conjunct); the leftover kept in the accumulator is 0.12 - 0.1 = 0.02 s
(second conjunct). -/
theorem server_update_double_counts_delta :
    (Server.update Server.new (6/100)).2 = true ∧
    (Server.update Server.new (6/100)).1.time_since_last_update = 1/50 ∧
    (6/100 : ℚ) < Server.new.update_interval := by
  refine ⟨?_, ?_, by norm_num [Server.new]⟩
  · norm_num [Server.update, Server.new]
  · norm_num [Server.update, Server.new]

/-- C5: refuted on the code. For an entity the server has processed no
input for, sendWorldState defaults the acknowledgment field to 0.0
(server.rs line 83), which is not distinct from the valid first
sequence number 0: a reconciling client holding the still
unacknowledged pending input with sequence number 0 prunes it when it
processes such a snapshot (second conjunct, the pending log becomes
empty). -/
theorem snapshot_default_ack_equals_seq_zero :
    Server.worldStateEntryFor (serverAfterClients 1) 1 =
      some { entity_id := 1, position := 0, last_processed_input := 0 } ∧
    (Client.processOwnEntry true (Entity.new 1)
        [{ press_time := -(1/100), entity_id := 1, input_sequence_number := 0 }]
        { entity_id := 1, position := 0, last_processed_input := 0 }).2 = [] := by
  constructor
  · norm_num [Server.worldStateEntryFor, serverAfterClients, Server.add_client,
      Server.new, Entity.new]
  · simp [Client.processOwnEntry, reconcileLoop_eq, ratToU32]

/-- C6: refuted on the code. The interpolation step prunes a clone of
the position buffer (client.rs line 169), never the stored one: for a
remote entity whose buffer holds an aged-out leading sample (0, 0)
(its successor timestamp 100 is at most the render timestamp 150), the
stored buffer after the step still holds all three samples (first
conjunct), although the front pruning applied to the working copy
discards the leading pair (second conjunct). -/
theorem interpolation_leaves_stored_buffer_unpruned :
    (Client.interpolateEntity
        { x := 0, speed := 10, entity_id := 2,
          position_buffer := [(0, 0), (100, 10), (200, 20)] } 150).position_buffer =
      [(0, 0), (100, 10), (200, 20)] ∧
    pruneBuffer 150 [(0, 0), (100, 10), (200, 20)] = [(100, 10), (200, 20)] := by
  constructor
  · norm_num [Client.interpolateEntity, pruneBuffer]
  · norm_num [pruneBuffer]

/-- C8: confirmed. With the pruned buffer holding exactly the samples
(0, 0.0) and (100, 10.0) and render timestamp 40, the blend branch sets
the position to 0 + ((40 - 0) / (100 - 0)) * (10 - 0) = 4. -/
theorem interpolation_linear_blend_concrete :
    (Client.interpolateEntity
        { x := 0, speed := 10, entity_id := 2,
          position_buffer := [(0, 0), (100, 10)] } 40).x = 4 := by
  norm_num [Client.interpolateEntity, pruneBuffer]

/-- Helper: folding the integration rule over a list of inputs moves the
position by the folded sum of press_time times speed and keeps the
speed, so the entity-level fold equals the position-level fold. -/
theorem foldl_applyInput_x (e : Entity) (l : List MovementInput) :
    (List.foldl Entity.applyInput e l).x =
      List.foldl (fun x inp => x + inp.press_time * (e.speed : ℚ)) e.x l := by
  induction l generalizing e with
  | nil => rfl
  | cons a t ih =>
    simp only [List.foldl_cons]
    rw [ih]
    rfl

/-- Helper: the u32 cast is the identity on embedded u32 values. -/
theorem ratToU32_natCast (k : ℕ) (hk : k < 2 ^ 32) : ratToU32 (k : ℚ) = k := by
  simp only [ratToU32, Int.floor_natCast, Int.toNat_natCast]
  omega

/-- C3: confirmed. For a pending log emitted in ascending sequence
order, processing a snapshot entry for the own entity with
reconciliation enabled leaves the entity at the position obtained by
starting from the authoritative snapshot position and applying, through
the integration rule, exactly the pending inputs whose sequence number
exceeds the acknowledged sequence carried by the entry, and the applied
list (the filter of the pending log) is itself in ascending sequence
order. -/
theorem reconciliation_replay_matches_direct_application
    (e : Entity) (pending : List MovementInput) (ws : world_state)
    (hsorted : pending.Pairwise
      (fun a b => a.input_sequence_number < b.input_sequence_number)) :
    (Client.processOwnEntry true e pending ws).1.x =
      List.foldl (fun x inp => x + inp.press_time * (e.speed : ℚ)) ws.position
        (pending.filter fun inp =>
          decide (ratToU32 ws.last_processed_input < inp.input_sequence_number)) ∧
    (pending.filter fun inp =>
        decide (ratToU32 ws.last_processed_input < inp.input_sequence_number)).Pairwise
      (fun a b => a.input_sequence_number < b.input_sequence_number) := by
  constructor
  · simp only [Client.processOwnEntry, if_true]
    rw [reconcileLoop_eq]
    simp only [List.drop_zero]
    rw [foldl_applyInput_x]
  · exact List.Pairwise.sublist (List.filter_sublist pending) hsorted

/-- Witness for C3: three pending inputs with sequence numbers 0, 1, 2
and press times 1, 2, 3; the snapshot acknowledges sequence 1 at
position 5; the replay ends at 5 + 3 * 10 = 35. -/
theorem reconciliation_replay_witness :
    (Client.processOwnEntry true (Entity.new 1)
        [⟨1, 1, 0⟩, ⟨2, 1, 1⟩, ⟨3, 1, 2⟩] ⟨1, 5, 1⟩).1.x = 35 := by
  have h := reconciliation_replay_matches_direct_application (Entity.new 1)
    [⟨1, 1, 0⟩, ⟨2, 1, 1⟩, ⟨3, 1, 2⟩] ⟨1, 5, 1⟩ (by decide)
  rw [h.1]
  norm_num [ratToU32, Entity.new]

/-- C4: confirmed. Processing a snapshot entry for the own entity that
carries acknowledged sequence k (any u32 value, embedded through the
cast of the f32 field) leaves the pending log holding exactly the
previously pending inputs with sequence number greater than k, in their
original relative order: the index loop produces precisely the filter
of the previous log. -/
theorem pruning_keeps_exactly_unacked
    (e : Entity) (pending : List MovementInput) (ws : world_state) (k : ℕ)
    (hk : k < 2 ^ 32) (hws : ws.last_processed_input = (k : ℚ)) :
    (Client.processOwnEntry true e pending ws).2 =
      pending.filter fun inp => decide (k < inp.input_sequence_number) := by
  simp only [Client.processOwnEntry, if_true]
  rw [reconcileLoop_eq]
  simp only [List.drop_zero, List.take_zero, List.nil_append]
  rw [hws, ratToU32_natCast k hk]

/-- Witness for C4: with pending sequence numbers 0, 1, 2 and
acknowledged sequence 1, exactly the input with sequence number 2
remains. -/
theorem pruning_keeps_exactly_unacked_witness :
    (Client.processOwnEntry true (Entity.new 1)
        [⟨1, 1, 0⟩, ⟨2, 1, 1⟩, ⟨3, 1, 2⟩] ⟨1, 5, 1⟩).2 = [⟨3, 1, 2⟩] := by
  have h := pruning_keeps_exactly_unacked (Entity.new 1)
    [⟨1, 1, 0⟩, ⟨2, 1, 1⟩, ⟨3, 1, 2⟩] ⟨1, 5, 1⟩ 1 (by norm_num) (by norm_num)
  rw [h]
  decide

/-- Helper: the receive scan removes and returns the first (least
index) message of the queue that is due at the call time, if any
message at all is due. -/
theorem receive_first_due {α : Type} (now : ℚ) (q : List (NetworkMessage α)) :
    ∀ (i : ℕ) (hi : i < q.length),
      1/10 ≤ now - q[i].receive_time →
      ∃ (k : ℕ) (hk : k < q.length),
        k ≤ i ∧ (1/10 ≤ now - q[k].receive_time) ∧
        LagNetwork.receive now q = some (q[k].payload, q.eraseIdx k) := by
  induction q with
  | nil =>
    intro i hi
    simp at hi
  | cons a rest ih =>
    intro i hi hdue
    by_cases hd : 1/10 ≤ now - a.receive_time
    · refine ⟨0, by simp, Nat.zero_le i, by simpa using hd, ?_⟩
      simp only [LagNetwork.receive]
      rw [if_pos hd]
      simp
    · have hi0 : i ≠ 0 := by
        intro h0
        subst h0
        exact hd (by simpa using hdue)
      obtain ⟨i', rfl⟩ : ∃ i', i = i' + 1 := ⟨i - 1, by omega⟩
      have hi' : i' < rest.length := by simpa using hi
      have hdue' : 1/10 ≤ now - rest[i'].receive_time := by simpa using hdue
      obtain ⟨k, hk, hki, hkdue, hrec⟩ := ih i' hi' hdue'
      refine ⟨k + 1, by simpa using Nat.succ_lt_succ hk,
        Nat.succ_le_succ hki, by simpa using hkdue, ?_⟩
      simp only [LagNetwork.receive, if_neg hd, hrec, List.eraseIdx_cons_succ,
        List.getElem_cons_succ]

/-- Helper: erasing an earlier index keeps a later element in the
list. -/
theorem getElem_mem_eraseIdx_of_lt {β : Type} :
    ∀ (l : List β) (k j : ℕ) (hjl : j < l.length), k < j → l[j] ∈ l.eraseIdx k := by
  intro l
  induction l with
  | nil =>
    intro k j hjl
    simp at hjl
  | cons a t ih =>
    intro k j hjl hkj
    obtain ⟨j', rfl⟩ : ∃ j', j = j' + 1 := ⟨j - 1, by omega⟩
    cases k with
    | zero =>
      simp only [List.eraseIdx_cons_zero, List.getElem_cons_succ]
      exact List.getElem_mem _
    | succ k' =>
      simp only [List.eraseIdx_cons_succ, List.getElem_cons_succ]
      exact List.mem_cons_of_mem a (ih k' j' (by simpa using hjl) (by omega))

/-- C7: confirmed. If the message at index i and the message at the
later index j of the queue are both due when receive is called, the
call removes and returns the message at some index k at most i (the
first due message, so delivery among due messages follows insertion
order), and the message at index j is still in the remaining queue: the
later message is never delivered before the earlier one. -/
theorem lag_receive_fifo_among_due {α : Type} (now : ℚ) (q : List (NetworkMessage α))
    (i j : ℕ) (hi : i < q.length) (hj : j < q.length) (hij : i < j)
    (hA : 1/10 ≤ now - q[i].receive_time)
    (hB : 1/10 ≤ now - q[j].receive_time) :
    ∃ (k : ℕ) (hk : k < q.length), k ≤ i ∧
      LagNetwork.receive now q = some (q[k].payload, q.eraseIdx k) ∧
      q[j] ∈ q.eraseIdx k := by
  obtain ⟨k, hk, hki, hkdue, hrec⟩ := receive_first_due now q i hi hA
  exact ⟨k, hk, hki, hrec,
    getElem_mem_eraseIdx_of_lt q k j hj (lt_of_le_of_lt hki hij)⟩

/-- Witness for C7: two messages both sent at time 0, received at time
1 (both due); the first receive call returns the payload of the first
message and keeps the second queued. -/
theorem lag_receive_fifo_witness :
    LagNetwork.receive 1 ([⟨0, 0⟩, ⟨0, 1⟩] : List (NetworkMessage ℕ)) =
      some (0, [⟨0, 1⟩]) := by
  obtain ⟨k, hk, hk0, hrec, hmem⟩ :=
    lag_receive_fifo_among_due 1 ([⟨0, 0⟩, ⟨0, 1⟩] : List (NetworkMessage ℕ))
      0 1 (by norm_num) (by norm_num) (by norm_num)
      (by norm_num) (by norm_num)
  have hk0' : k = 0 := Nat.le_zero.mp hk0
  subst hk0'
  simpa using hrec

/-- Helper: after n registrations the server has n clients, the client
at position i carries entity id i + 1, and the authoritative entity map
holds exactly the ids 1 through n, each mapping to the fresh entity
with that id. -/
theorem serverAfterClients_spec (n : ℕ) :
    (serverAfterClients n).clients.length = n ∧
    (∀ (i : ℕ) (hi : i < (serverAfterClients n).clients.length),
      (serverAfterClients n).clients[i].entity_id = i + 1) ∧
    (∀ m : ℕ, (serverAfterClients n).entities m =
      if 1 ≤ m ∧ m ≤ n then some (Entity.new m) else none) := by
  induction n with
  | zero =>
    refine ⟨rfl, ?_, ?_⟩
    · intro i hi
      simp [serverAfterClients, Server.new] at hi
    · intro m
      rw [if_neg (by omega)]
      rfl
  | succ n ih =>
    obtain ⟨hlen, hget, hent⟩ := ih
    refine ⟨?_, ?_, ?_⟩
    · simp [serverAfterClients, Server.add_client, hlen]
    · intro i hi
      simp only [serverAfterClients, Server.add_client] at hi ⊢
      simp only [List.length_append, List.length_cons, List.length_nil] at hi
      by_cases hin : i < (serverAfterClients n).clients.length
      · rw [List.getElem_append_left hin]
        exact hget i hin
      · have hieq : i = (serverAfterClients n).clients.length := by omega
        subst hieq
        rw [List.getElem_append_right (le_refl _)]
        simp [Client.new, hlen]
    · intro m
      simp only [serverAfterClients, Server.add_client]
      simp only [List.length_append, List.length_cons, List.length_nil, hlen]
      by_cases hm : m = n + 1
      · subst hm
        rw [if_pos rfl, if_pos (by omega)]
      · rw [if_neg hm, hent m]
        by_cases hr : 1 ≤ m ∧ m ≤ n
        · rw [if_pos hr, if_pos (by omega)]
        · rw [if_neg hr, if_neg (by omega)]

/-- C9: confirmed. After n registrations the i-th registered client
(0-based position i, so 1-based order i + 1) holds controlled entity id
i + 1, the server holds an authoritative entity under exactly that id
(a fresh entity whose own id field is also i + 1), and no entity exists
under any id beyond n, so ids are never reused and clients that never
send input still have their entity. -/
theorem registration_assigns_sequential_ids (n i : ℕ) (hi : i < n) :
    (serverAfterClients n).clients.length = n ∧
    ∃ h : i < (serverAfterClients n).clients.length,
      ((serverAfterClients n).clients.get ⟨i, h⟩).entity_id = i + 1 ∧
      (serverAfterClients n).entities (i + 1) = some (Entity.new (i + 1)) ∧
      (Entity.new (i + 1)).entity_id = i + 1 ∧
      (∀ m : ℕ, n < m → (serverAfterClients n).entities m = none) := by
  obtain ⟨hlen, hget, hent⟩ := serverAfterClients_spec n
  have h : i < (serverAfterClients n).clients.length := by omega
  refine ⟨hlen, h, ?_, ?_, rfl, ?_⟩
  · simpa using hget i h
  · rw [hent (i + 1), if_pos (by omega)]
  · intro m hm
    rw [hent m, if_neg (by omega)]

/-- Witness for C9: with two registered clients, the second client
(1-based order 2) controls entity id 2, which the server holds, and no
entity id beyond 2 is in use. -/
theorem registration_assigns_sequential_ids_witness :
    (serverAfterClients 2).clients.length = 2 ∧
    ∃ h : 1 < (serverAfterClients 2).clients.length,
      ((serverAfterClients 2).clients.get ⟨1, h⟩).entity_id = 2 ∧
      (serverAfterClients 2).entities 2 = some (Entity.new 2) ∧
      (Entity.new 2).entity_id = 2 ∧
      (∀ m : ℕ, 2 < m → (serverAfterClients 2).entities m = none) :=
  registration_assigns_sequential_ids 2 1 (by norm_num)

/-- Helper: whenever the front-pruned buffer still has at least two
samples, the timestamp of the second one is strictly greater than the
render timestamp (otherwise the pruning loop would have dropped
another head). -/
theorem pruneBuffer_second_gt (rt : ℕ) :
    ∀ (l : List (ℕ × ℚ)) (p0 p1 : ℕ × ℚ) (rest : List (ℕ × ℚ)),
      pruneBuffer rt l = p0 :: p1 :: rest → rt < p1.1 := by
  intro l
  induction l with
  | nil =>
    intro p0 p1 rest h
    simp [pruneBuffer] at h
  | cons a t ih =>
    intro p0 p1 rest h
    cases t with
    | nil => simp [pruneBuffer] at h
    | cons b r =>
      rw [pruneBuffer] at h
      split at h
      · exact ih p0 p1 rest h
      · rename_i hgt
        have hb : p1 = b := by
          injection h with h1 h2
          injection h2 with h3 h4
          exact h3.symm
        subst hb
        omega

/-- C10: confirmed. If the pruned buffer starts with the samples p0 and
p1 and the blend branch guard holds (first timestamp at most the render
timestamp, render timestamp at most the second timestamp), then the
branch runs and computes the blend, the second timestamp is strictly
greater than the render timestamp (by the pruning loop), both unsigned
timestamp subtractions are exact (adding the subtrahend back recovers
the minuend, so no underflow), the denominator is strictly positive,
and the blend fraction lies in the interval from 0 inclusive to 1
exclusive. -/
theorem interpolation_blend_branch_safety (e : Entity) (rt : ℕ)
    (p0 p1 : ℕ × ℚ) (rest : List (ℕ × ℚ))
    (hbuf : pruneBuffer rt e.position_buffer = p0 :: p1 :: rest)
    (h0 : p0.1 ≤ rt) (h1 : rt ≤ p1.1) :
    Client.interpolateEntity e rt =
      { e with x := p0.2 +
          (((rt - p0.1 : ℕ) : ℚ) / ((p1.1 - p0.1 : ℕ) : ℚ)) * (p1.2 - p0.2) } ∧
    p0.1 ≤ rt ∧ rt < p1.1 ∧ 0 < p1.1 - p0.1 ∧
    ((rt - p0.1 : ℕ) : ℚ) + (p0.1 : ℚ) = (rt : ℚ) ∧
    ((p1.1 - p0.1 : ℕ) : ℚ) + (p0.1 : ℚ) = (p1.1 : ℚ) ∧
    0 ≤ ((rt - p0.1 : ℕ) : ℚ) / ((p1.1 - p0.1 : ℕ) : ℚ) ∧
    ((rt - p0.1 : ℕ) : ℚ) / ((p1.1 - p0.1 : ℕ) : ℚ) < 1 := by
  have hlt : rt < p1.1 := pruneBuffer_second_gt rt e.position_buffer p0 p1 rest hbuf
  have hden : (0 : ℚ) < ((p1.1 - p0.1 : ℕ) : ℚ) := by
    rw [Nat.cast_pos]
    omega
  refine ⟨?_, h0, hlt, by omega, ?_, ?_, ?_, ?_⟩
  · rw [Client.interpolateEntity, hbuf]
    exact if_pos ⟨h0, h1⟩
  · rw [Nat.cast_sub h0]
    ring
  · rw [Nat.cast_sub (by omega : p0.1 ≤ p1.1)]
    ring
  · positivity
  · rw [div_lt_one hden, Nat.cast_lt]
    omega

/-- Witness for C10: buffer samples at timestamps 0 and 100, render
timestamp 40; the branch guard holds, the fraction is 40 / 100, and the
bounds from the theorem instantiate to closed facts. -/
theorem interpolation_blend_branch_safety_witness :
    ((40 : ℕ) < 100) ∧
    (0 : ℕ) < 100 - 0 ∧
    0 ≤ ((40 - 0 : ℕ) : ℚ) / ((100 - 0 : ℕ) : ℚ) ∧
    ((40 - 0 : ℕ) : ℚ) / ((100 - 0 : ℕ) : ℚ) < 1 := by
  have h := interpolation_blend_branch_safety
      { x := 0, speed := 10, entity_id := 2, position_buffer := [(0, 0), (100, 10)] }
      40 (0, 0) (100, 10) [] (by simp [pruneBuffer]) (by norm_num) (by norm_num)
  exact ⟨h.2.2.1, h.2.2.2.1, h.2.2.2.2.2.2.1, h.2.2.2.2.2.2.2⟩
